import Mathlib

/-!
A verification development for the BioKIT repository.

The repository ships a command-line toolkit (`biokit/biokit.py`) whose
commands delegate to service classes (`biokit/services/text/...`).  The
assembly-metric engine (N50/N90/L50/L90) and the GC-content computation
live in service modules whose bodies are not part of the excerpt; they are
modelled here from the specification.  The CLI dispatch logic
(`Biokit.__init__`, `Biokit.run_alias`, `main`) and the `L90.run` wrapper
are embedded from the source files directly.

Numeric note: the specification requires the threshold comparison
`running_sum >= target` to be carried out without rounding `target`;
`target = total * fraction` with `fraction ∈ {0.5, 0.9}` is exactly
representable, so the Python float arithmetic is modelled exactly by
rational arithmetic (`ℚ`).
-/

namespace BioKit

/-- Descending sort used by the cumulative-threshold algorithm
(spec step 1: "Sort lengths in descending order"). -/
def sortDesc (lengths : List Nat) : List Nat :=
  lengths.insertionSort (· ≥ ·)

/-- Modelled from the spec: the walk of step 4 of `cumulative_threshold`
("Walk the sorted sequence accumulating a running sum; stop at the first
(1-indexed) position `i` where `running_sum >= target`"), with the running
sum accumulated in `acc` and the 1-based position carried in `idx`.
Returns `(value_at_threshold, index_at_threshold)` per step 5. -/
def thresholdWalk : List Nat → Nat → Nat → ℚ → Option (Nat × Nat)
  | [], _, _, _ => none
  | x :: xs, acc, idx, target =>
    if target ≤ ((acc : ℚ) + (x : ℚ)) then some (x, idx)
    else thresholdWalk xs (acc + x) (idx + 1) target

/-- Modelled from the spec: `cumulative_threshold(lengths, fraction)`
(the shared algorithm of §4.2, whose implementation in
`biokit/services/text/base.py` is not in the excerpt).  Fails with
`EmptyInputError` — modelled as `none` — if `lengths` is empty or
`total == 0` (step 2); otherwise sorts descending, computes
`target = total * fraction` and walks. -/
def cumulative_threshold (lengths : List Nat) (fraction : ℚ) : Option (Nat × Nat) :=
  if lengths = [] ∨ lengths.sum = 0 then none
  else thresholdWalk (sortDesc lengths) 0 1 ((lengths.sum : ℚ) * fraction)

/-- Modelled from the spec: `N50(lengths) = cumulative_threshold(lengths, 0.5).value`. -/
def n50 (lengths : List Nat) : Option Nat :=
  (cumulative_threshold lengths (1/2)).map Prod.fst

/-- Modelled from the spec: `N90(lengths) = cumulative_threshold(lengths, 0.9).value`. -/
def n90 (lengths : List Nat) : Option Nat :=
  (cumulative_threshold lengths (9/10)).map Prod.fst

/-- Modelled from the spec: `L50(lengths) = cumulative_threshold(lengths, 0.5).index`. -/
def l50 (lengths : List Nat) : Option Nat :=
  (cumulative_threshold lengths (1/2)).map Prod.snd

/-- Modelled from the spec: `L90(lengths) = cumulative_threshold(lengths, 0.9).index`. -/
def l90 (lengths : List Nat) : Option Nat :=
  (cumulative_threshold lengths (9/10)).map Prod.snd

/-- Modelled from the spec: the G/C test, case-insensitive
("count of G or C characters, case-insensitive"). -/
def isGC (c : Char) : Bool :=
  c == 'G' || c == 'C' || c == 'g' || c == 'c'

/-- Modelled from the spec: number of G/C characters of a sequence string. -/
def gcCount (s : String) : Nat :=
  s.data.countP isGC

/-- A sequence collection as the core consumes it: an ordered association of
entry name and sequence string. -/
def totalLen (coll : List (String × String)) : Nat :=
  (coll.map (fun p => p.2.length)).sum

/-- Modelled from the spec: `gc_content(collection, per_entry=False)` from
`biokit/services/text` (the `GCContent` service body is not in the excerpt):
aggregate numerator and denominator are summed across entries, result is
`(G+C count) / (total length) * 100`; fails with `EmptyInputError` — modelled
as `none` — when the total length is zero. -/
def gc_content (coll : List (String × String)) : Option ℚ :=
  if totalLen coll = 0 then none
  else some (((coll.map (fun p => gcCount p.2)).sum : ℚ) / (totalLen coll : ℚ) * 100)

/-- Modelled from the spec: `gc_content(collection, per_entry=True)`: the
per-entry mapping from name to GC percentage, failing the same way when the
total length is zero. -/
def gc_content_per_entry (coll : List (String × String)) : Option (List (String × ℚ)) :=
  if totalLen coll = 0 then none
  else some (coll.map (fun p => (p.1, (gcCount p.2 : ℚ) / (p.2.length : ℚ) * 100)))

/-- Concatenation of all sequences of a collection, in order. -/
def concatSeqs (coll : List (String × String)) : String :=
  coll.foldr (fun p acc => p.2 ++ acc) ""

/-- Modelled from the spec: `calc_l90` (defined in
`biokit/services/text/base.py`, which is not in the excerpt) computes the L90
metric from the sequence lengths of the collection. -/
def calc_l90 (lengths : List Nat) : Option Nat :=
  l90 lengths

/-- Embeds `L90.run` from `biokit/services/text/l90.py`:
`print(self.calc_l90())`.  On success, standard output receives the printed
value followed by the newline that `print` appends. -/
def L90_run (lengths : List Nat) : Option String :=
  (calc_l90 lengths).map (fun m => Nat.repr m ++ "\n")

/-- The names bound at module scope in `biokit/biokit.py`: the imported
modules and imported names, the module-level bindings (`logger`, `ch`,
`help_header`), and the top-level definitions.  `Biokit` is bound;
`BioKIT` is not bound anywhere in the module. -/
def moduleGlobals : List String :=
  ["logging", "sys", "textwrap", "__version__",
   "ArgumentParser", "RawTextHelpFormatter", "SUPPRESS",
   "RawDescriptionHelpFormatter",
   "Faidx", "FileFormatConverter", "GCContent", "L50", "L90", "N50", "N90",
   "RenameFastaEntries", "SequenceComplement", "SequenceLength", "TipLabels",
   "str2bool", "logger", "ch", "help_header", "Biokit",
   "main", "faidx", "tip_labels"]

/-- A Python runtime error, as far as the dispatch logic needs it. -/
inductive PyError
  | nameError (name : String)
deriving DecidableEq

/-- Embeds `main` from `biokit/biokit.py` (`def main(argv=None): BioKIT()`):
the name `BioKIT` is resolved against the module globals; only if that lookup
succeeded would the constructor run and dispatch the command in `argv`. -/
def pymain (argv : List String) : Except PyError Unit :=
  if "BioKIT" ∈ moduleGlobals then Except.ok ()
  else Except.error (PyError.nameError "BioKIT")

/-- The attribute names visible on a `Biokit` instance, as `hasattr`
consults them in `Biokit.__init__`: the class attribute `help_header`, the
methods defined in the class body, and the standard attributes inherited
from `object`. -/
def biokitAttrs : List String :=
  ["help_header", "__init__", "run_alias", "version", "consensus_sequence",
   "faidx", "file_format_converter", "gc_content", "l50", "l90", "n50", "n90",
   "rename_fasta_entries", "sequence_length", "sequence_complement",
   "tip_labels",
   "__class__", "__delattr__", "__dict__", "__dir__", "__doc__", "__eq__",
   "__format__", "__ge__", "__getattribute__", "__gt__", "__hash__",
   "__le__", "__lt__", "__module__", "__ne__", "__new__", "__reduce__",
   "__reduce_ex__", "__repr__", "__setattr__", "__sizeof__", "__str__",
   "__subclasshook__", "__weakref__"]

/-- Embeds the alias table of `Biokit.run_alias`: the `if command in [...]`
chain, in source order, mapping an alias to the method it dispatches to.
`none` means the chain falls through to the invalid-command branch. -/
def aliasTarget (command : String) : Option String :=
  if command = "v" then some "version"
  else if command = "con_len" then some "consensus_sequence"
  else if command = "get_entry" ∨ command = "ge" then some "faidx"
  else if command = "format_converter" ∨ command = "ffc" then
    some "file_format_converter"
  else if command = "labels" ∨ command = "tree_labels" ∨ command = "tl" then
    some "tip_labels"
  else none

/-- The local names bound in the body of `Biokit.run_alias` (its parameters;
the body assigns no local variable), against which the name `parser` in
`parser.print_help()` is resolved before falling back to the module
globals. -/
def runAliasScope : List String :=
  ["self", "command", "argv"]

/-- The invalid-command message printed by `Biokit.run_alias`. -/
def invalidCommandMessage : String :=
  "Invalid command option. See help for a complete list of commands and aliases."

/-- Outcome of one `Biokit()` construction. -/
inductive DispatchOutcome
  | ran (method : String)
  | exited (code : Nat) (printed : List String)
deriving DecidableEq

/-- Embeds the dispatch of `Biokit.__init__` together with `Biokit.run_alias`:
a command that is an attribute of the class is dispatched via `getattr`;
otherwise `run_alias` consults its alias table; otherwise the invalid-command
message is printed and `parser.print_help()` is evaluated.  If the name
`parser` resolved, execution would go on to `sys.exit(1)`; since it does not,
a `NameError` is raised, which `__init__` catches with `except NameError:
sys.exit()` — exiting with status 0. -/
def biokitDispatch (command : String) : DispatchOutcome :=
  if command ∈ biokitAttrs then DispatchOutcome.ran command
  else
    match aliasTarget command with
    | some target => DispatchOutcome.ran target
    | none =>
        if "parser" ∈ runAliasScope ∨ "parser" ∈ moduleGlobals then
          DispatchOutcome.exited 1 [invalidCommandMessage]
        else
          DispatchOutcome.exited 0 [invalidCommandMessage]

/-- Aliases advertised by the help text of `Biokit.gc_content`. -/
def gcContentHelpAliases : List String :=
  ["gc_content", "gc"]

/-- Aliases advertised by the help text of `Biokit.sequence_length`. -/
def sequenceLengthHelpAliases : List String :=
  ["sequence_length", "seq_len"]

/-- Aliases advertised by the help text of `Biokit.sequence_complement`. -/
def sequenceComplementHelpAliases : List String :=
  ["sequence_complement", "seq_comp"]

/-- Aliases advertised by the help text of `Biokit.rename_fasta_entries`. -/
def renameFastaHelpAliases : List String :=
  ["rename_fasta_entries", "rename_fasta"]

/-- Characterization of the walk: started with running sum `acc` strictly below
`target` but with `target` reachable by the end of the list, the walk stops at
the first offset `k` whose cumulative sum meets `target`, and returns the
element there together with the position `idx + k`. -/
theorem thresholdWalk_char (l : List Nat) (acc idx : Nat) (target : ℚ)
    (hacc : (acc : ℚ) < target)
    (hreach : target ≤ (acc : ℚ) + (l.sum : ℚ)) :
    ∃ k, k < l.length ∧
      thresholdWalk l acc idx target = some (l.getD k 0, idx + k) ∧
      target ≤ (acc : ℚ) + ((l.take (k + 1)).sum : ℚ) ∧
      ∀ j, j ≤ k → (acc : ℚ) + ((l.take j).sum : ℚ) < target := by
  induction l generalizing acc idx with
  | nil =>
      exfalso
      simp only [List.sum_nil, Nat.cast_zero, add_zero] at hreach
      exact absurd (lt_of_lt_of_le hacc hreach) (lt_irrefl _)
  | cons x xs ih =>
      by_cases hx : target ≤ (acc : ℚ) + (x : ℚ)
      · refine ⟨0, by simp, ?_, ?_, ?_⟩
        · simp [thresholdWalk, hx]
        · simpa using hx
        · intro j hj
          have hj0 : j = 0 := Nat.le_zero.mp hj
          subst hj0
          simpa using hacc
      · push_neg at hx
        have hacc' : ((acc + x : Nat) : ℚ) < target := by push_cast; linarith
        have hreach' : target ≤ ((acc + x : Nat) : ℚ) + (xs.sum : ℚ) := by
          push_cast
          push_cast [List.sum_cons] at hreach
          linarith
        obtain ⟨k, hk, hwalk, hge, hlt⟩ := ih (acc + x) (idx + 1) hacc' hreach'
        refine ⟨k + 1, by simpa using Nat.succ_lt_succ hk, ?_, ?_, ?_⟩
        · have hstep : thresholdWalk (x :: xs) acc idx target
              = thresholdWalk xs (acc + x) (idx + 1) target := by
            simp [thresholdWalk, not_le.mpr hx]
          rw [hstep, hwalk, List.getD_cons_succ]
          have : idx + 1 + k = idx + (k + 1) := by omega
          rw [this]
        · rw [List.take_succ_cons]
          push_cast [List.sum_cons]
          push_cast at hge
          linarith
        · intro j hj
          cases j with
          | zero => simpa using hacc
          | succ j' =>
              have hj' : j' ≤ k := Nat.succ_le_succ_iff.mp hj
              have := hlt j' hj'
              push_cast at this
              rw [List.take_succ_cons]
              push_cast [List.sum_cons]
              linarith

/-- Characterization of `cumulative_threshold` on a non-empty list with
non-zero total, for any fraction in `(0, 1]`: it returns the element of the
descending-sorted list at the first offset `k` whose cumulative sum meets
`target = total * fraction`, paired with the 1-based position `k + 1`. -/
theorem cumulative_threshold_char (lengths : List Nat) (hne : lengths ≠ [])
    (hsum : lengths.sum ≠ 0) (fraction : ℚ) (hf0 : 0 < fraction) (hf1 : fraction ≤ 1) :
    ∃ k, k < lengths.length ∧
      cumulative_threshold lengths fraction = some ((sortDesc lengths).getD k 0, k + 1) ∧
      (lengths.sum : ℚ) * fraction ≤ (((sortDesc lengths).take (k + 1)).sum : ℚ) ∧
      ∀ j, j ≤ k →
        (((sortDesc lengths).take j).sum : ℚ) < (lengths.sum : ℚ) * fraction := by
  have hperm : List.Perm (sortDesc lengths) lengths := List.perm_insertionSort _ _
  have hsums : (sortDesc lengths).sum = lengths.sum := hperm.sum_eq
  have hpos : 0 < lengths.sum := Nat.pos_of_ne_zero hsum
  have hposq : (0 : ℚ) < (lengths.sum : ℚ) := by exact_mod_cast hpos
  have hacc : ((0 : Nat) : ℚ) < (lengths.sum : ℚ) * fraction := by
    rw [Nat.cast_zero]
    exact mul_pos hposq hf0
  have hreach : (lengths.sum : ℚ) * fraction
      ≤ ((0 : Nat) : ℚ) + ((sortDesc lengths).sum : ℚ) := by
    rw [hsums, Nat.cast_zero, zero_add]
    exact mul_le_of_le_one_right (le_of_lt hposq) hf1
  obtain ⟨k, hk, hwalk, hge, hlt⟩ :=
    thresholdWalk_char (sortDesc lengths) 0 1 ((lengths.sum : ℚ) * fraction) hacc hreach
  have hlen : (sortDesc lengths).length = lengths.length := hperm.length_eq
  have hguard : ¬(lengths = [] ∨ lengths.sum = 0) := by
    intro h
    rcases h with h | h
    · exact hne h
    · exact hsum h
  refine ⟨k, hlen ▸ hk, ?_, ?_, ?_⟩
  · rw [cumulative_threshold, if_neg hguard, hwalk]
    have : 1 + k = k + 1 := by omega
    rw [this]
  · simpa using hge
  · intro j hj
    simpa using hlt j hj

/-- On a successful `cumulative_threshold`, the returned value and index come
from the characterization above.  Convenience corollary giving membership of
the value in the input list. -/
theorem cumulative_threshold_mem (lengths : List Nat) (hne : lengths ≠ [])
    (hsum : lengths.sum ≠ 0) (fraction : ℚ) (hf0 : 0 < fraction) (hf1 : fraction ≤ 1)
    (v i : Nat) (h : cumulative_threshold lengths fraction = some (v, i)) :
    v ∈ lengths := by
  obtain ⟨k, hk, hwalk, -, -⟩ :=
    cumulative_threshold_char lengths hne hsum fraction hf0 hf1
  rw [h] at hwalk
  have hv : v = (sortDesc lengths).getD k 0 := by
    have := (Option.some.injEq _ _).mp hwalk
    exact (Prod.mk.injEq _ _ _ _).mp this.symm |>.1.symm
  have hklen : k < (sortDesc lengths).length := by
    simpa [sortDesc] using hk
  have hmem : (sortDesc lengths).getD k 0 ∈ sortDesc lengths := by
    rw [List.getD_eq_getElem _ _ hklen]
    exact List.getElem_mem hklen
  rw [hv]
  exact (List.mem_insertionSort _).mp hmem

/-- Claim C1: for every non-empty list of positive lengths and every fraction
in `(0, 1]`, `cumulative_threshold` sorts the lengths in descending order,
computes `target = sum * fraction`, and returns the pair `(sorted[i-1], i)`
at the first 1-based position `i` at which the running cumulative sum reaches
`target`; such a position exists and lies within the list. -/
theorem cumulative_threshold_first_threshold (lengths : List Nat) (hne : lengths ≠ [])
    (hpos : ∀ x ∈ lengths, 0 < x) (fraction : ℚ) (hf0 : 0 < fraction)
    (hf1 : fraction ≤ 1) :
    List.Sorted (· ≥ ·) (sortDesc lengths) ∧
    ∃ i, 1 ≤ i ∧ i ≤ lengths.length ∧
      cumulative_threshold lengths fraction
        = some ((sortDesc lengths).getD (i - 1) 0, i) ∧
      (lengths.sum : ℚ) * fraction ≤ (((sortDesc lengths).take i).sum : ℚ) ∧
      ∀ j, 1 ≤ j → j < i →
        (((sortDesc lengths).take j).sum : ℚ) < (lengths.sum : ℚ) * fraction := by
  have hsum : lengths.sum ≠ 0 := by
    intro h
    rw [List.sum_eq_zero_iff] at h
    cases lengths with
    | nil => exact hne rfl
    | cons a l =>
        have ha := hpos a (List.mem_cons_self a l)
        have hz := h a (List.mem_cons_self a l)
        omega
  refine ⟨List.sorted_insertionSort _ _, ?_⟩
  obtain ⟨k, hk, hwalk, hge, hlt⟩ :=
    cumulative_threshold_char lengths hne hsum fraction hf0 hf1
  refine ⟨k + 1, by omega, by omega, ?_, ?_, ?_⟩
  · simpa using hwalk
  · exact hge
  · intro j hj1 hji
    exact hlt j (by omega)

/-- Witness for C1 at the concrete input `[3, 2]` with fraction `1/2`. -/
theorem cumulative_threshold_first_threshold_witness :
    ([3, 2] : List Nat) ≠ [] ∧
    (List.Sorted (· ≥ ·) (sortDesc [3, 2]) ∧
      ∃ i, 1 ≤ i ∧ i ≤ ([3, 2] : List Nat).length ∧
        cumulative_threshold [3, 2] (1/2)
          = some ((sortDesc [3, 2]).getD (i - 1) 0, i) ∧
        ((([3, 2] : List Nat).sum : ℚ)) * (1/2)
          ≤ (((sortDesc [3, 2]).take i).sum : ℚ) ∧
        ∀ j, 1 ≤ j → j < i →
          (((sortDesc [3, 2]).take j).sum : ℚ)
            < ((([3, 2] : List Nat).sum : ℚ)) * (1/2)) :=
  ⟨by decide,
    cumulative_threshold_first_threshold [3, 2] (by decide) (by decide) (1/2)
      (by norm_num) (by norm_num)⟩

/-- Claim C2: on the concrete lengths `[100, 90, 80, 70, 60, 50, 40, 30, 20, 10]`
the four metrics are `N50 = 70`, `L50 = 4`, `N90 = 30`, `L90 = 8`. -/
theorem metrics_concrete_example :
    n50 [100, 90, 80, 70, 60, 50, 40, 30, 20, 10] = some 70 ∧
    l50 [100, 90, 80, 70, 60, 50, 40, 30, 20, 10] = some 4 ∧
    n90 [100, 90, 80, 70, 60, 50, 40, 30, 20, 10] = some 30 ∧
    l90 [100, 90, 80, 70, 60, 50, 40, 30, 20, 10] = some 8 := by
  refine ⟨?_, ?_, ?_, ?_⟩ <;>
    · norm_num [n50, n90, l50, l90, cumulative_threshold, sortDesc, thresholdWalk,
        List.insertionSort, List.orderedInsert, List.sum_cons]
      decide

/-- The function `cumulative_threshold` succeeds exactly on inputs that are non-empty with
non-zero total, for any fraction in `(0, 1]`. -/
theorem cumulative_threshold_isSome (lengths : List Nat) (fraction : ℚ)
    (hf0 : 0 < fraction) (hf1 : fraction ≤ 1) :
    (cumulative_threshold lengths fraction).isSome = true
      ↔ ¬(lengths = [] ∨ lengths.sum = 0) := by
  constructor
  · intro h hguard
    rw [cumulative_threshold, if_pos hguard] at h
    simp at h
  · intro hguard
    have hne : lengths ≠ [] := fun h => hguard (Or.inl h)
    have hsum : lengths.sum ≠ 0 := fun h => hguard (Or.inr h)
    obtain ⟨k, -, hwalk, -, -⟩ :=
      cumulative_threshold_char lengths hne hsum fraction hf0 hf1
    rw [hwalk]
    rfl

/-- Claim C3: each of the four metrics fails (`EmptyInputError`, modelled as
`none`) exactly when the length list is empty or its total is zero, and
succeeds on every non-empty list with positive total. -/
theorem metrics_fail_iff_empty (lengths : List Nat) :
    ((n50 lengths).isSome = true ↔ ¬(lengths = [] ∨ lengths.sum = 0)) ∧
    ((n90 lengths).isSome = true ↔ ¬(lengths = [] ∨ lengths.sum = 0)) ∧
    ((l50 lengths).isSome = true ↔ ¬(lengths = [] ∨ lengths.sum = 0)) ∧
    ((l90 lengths).isSome = true ↔ ¬(lengths = [] ∨ lengths.sum = 0)) := by
  have h50 := cumulative_threshold_isSome lengths (1/2) (by norm_num) (by norm_num)
  have h90 := cumulative_threshold_isSome lengths (9/10) (by norm_num) (by norm_num)
  have hmap : ∀ (f : Nat × Nat → Nat) (o : Option (Nat × Nat)),
      (o.map f).isSome = o.isSome := by
    intro f o
    cases o with
    | none => rfl
    | some p => rfl
  refine ⟨?_, ?_, ?_, ?_⟩ <;>
    · simp only [n50, n90, l50, l90]
      rw [hmap]
      first
      | exact h50
      | exact h90

/-- Claim C5: on every non-empty list with positive total, both `L50` and
`L90` succeed and `L50 <= L90`: the stopping index is monotone in the
fraction. -/
theorem l50_le_l90 (lengths : List Nat) (hne : lengths ≠ [])
    (hsum : lengths.sum ≠ 0) :
    ∃ a b, l50 lengths = some a ∧ l90 lengths = some b ∧ a ≤ b := by
  obtain ⟨k1, hk1, hwalk1, hge1, hlt1⟩ :=
    cumulative_threshold_char lengths hne hsum (1/2) (by norm_num) (by norm_num)
  obtain ⟨k2, hk2, hwalk2, hge2, hlt2⟩ :=
    cumulative_threshold_char lengths hne hsum (9/10) (by norm_num) (by norm_num)
  refine ⟨k1 + 1, k2 + 1, ?_, ?_, ?_⟩
  · simp only [l50]
    rw [hwalk1]
    rfl
  · simp only [l90]
    rw [hwalk2]
    rfl
  by_contra hcontra
  have hk21 : k2 + 1 ≤ k1 := by omega
  have hlow := hlt1 (k2 + 1) (by omega)
  have hsumpos : (0 : ℚ) ≤ (lengths.sum : ℚ) := by positivity
  have hmono : (lengths.sum : ℚ) * (1/2) ≤ (lengths.sum : ℚ) * (9/10) := by
    nlinarith
  linarith

/-- Witness for C5 at the concrete input `[3]`. -/
theorem l50_le_l90_witness :
    (([3] : List Nat) ≠ [] ∧ ([3] : List Nat).sum ≠ 0) ∧
    ∃ a b, l50 [3] = some a ∧ l90 [3] = some b ∧ a ≤ b :=
  ⟨⟨by decide, by decide⟩, l50_le_l90 [3] (by decide) (by decide)⟩

/-- Claim C6: on every non-empty list with positive total, the value component
returned by `cumulative_threshold` for any fraction in `(0, 1]` is an element
of the input list; hence `N50` and `N90` always equal the length of some input
sequence. -/
theorem cumulative_threshold_value_mem (lengths : List Nat) (hne : lengths ≠ [])
    (hsum : lengths.sum ≠ 0) :
    (∀ fraction : ℚ, 0 < fraction → fraction ≤ 1 →
      ∀ v i, cumulative_threshold lengths fraction = some (v, i) → v ∈ lengths) ∧
    (∀ v, n50 lengths = some v → v ∈ lengths) ∧
    (∀ v, n90 lengths = some v → v ∈ lengths) := by
  refine ⟨fun fraction hf0 hf1 v i h =>
    cumulative_threshold_mem lengths hne hsum fraction hf0 hf1 v i h, ?_, ?_⟩
  · intro v hv
    rw [n50] at hv
    obtain ⟨⟨v', i⟩, hct, hfst⟩ := Option.map_eq_some'.mp hv
    cases hfst
    exact cumulative_threshold_mem lengths hne hsum (1/2) (by norm_num) (by norm_num)
      v' i hct
  · intro v hv
    rw [n90] at hv
    obtain ⟨⟨v', i⟩, hct, hfst⟩ := Option.map_eq_some'.mp hv
    cases hfst
    exact cumulative_threshold_mem lengths hne hsum (9/10) (by norm_num) (by norm_num)
      v' i hct

/-- The G/C count of the concatenation is the sum of the per-entry G/C
counts. -/
theorem gcCount_concatSeqs (coll : List (String × String)) :
    gcCount (concatSeqs coll) = (coll.map (fun p => gcCount p.2)).sum := by
  induction coll with
  | nil => rfl
  | cons p rest ih =>
      simp only [concatSeqs, List.foldr_cons, List.map_cons, List.sum_cons]
      rw [gcCount, String.data_append, List.countP_append]
      rw [concatSeqs] at ih
      rw [← ih]
      rfl

/-- The length of the concatenation is the total length of the collection. -/
theorem length_concatSeqs (coll : List (String × String)) :
    (concatSeqs coll).length = totalLen coll := by
  induction coll with
  | nil => rfl
  | cons p rest ih =>
      simp only [concatSeqs, List.foldr_cons, totalLen, List.map_cons, List.sum_cons]
      rw [String.length_append]
      rw [concatSeqs] at ih
      rw [ih]
      rfl

/-- Claim C4: `gc_content` fails exactly when the total length is zero; the
aggregate form equals the GC content of the concatenation of all sequences
(numerator and denominator summed across entries, not a mean of per-entry
percentages — witnessed by `[("a","G"),("b","AAA")]`, whose aggregate is 25
while the mean of per-entry percentages would be 50); the single sequence
`"GCGCATAT"` yields 50, both aggregate and per entry. -/
theorem gc_content_spec (coll : List (String × String)) :
    (gc_content coll = none ↔ totalLen coll = 0) ∧
    (gc_content_per_entry coll = none ↔ totalLen coll = 0) ∧
    gc_content coll = gc_content [("all", concatSeqs coll)] ∧
    gc_content [("seq", "GCGCATAT")] = some 50 ∧
    gc_content_per_entry [("seq", "GCGCATAT")] = some [("seq", 50)] ∧
    gc_content [("a", "G"), ("b", "AAA")] = some 25 := by
  refine ⟨?_, ?_, ?_, ?_, ?_, ?_⟩
  · rw [gc_content]
    split_ifs with h <;> simp [h]
  · rw [gc_content_per_entry]
    split_ifs with h <;> simp [h]
  · have hlen : totalLen [("all", concatSeqs coll)] = totalLen coll := by
      simp [totalLen, length_concatSeqs]
    rw [gc_content, gc_content, hlen]
    split_ifs with h
    · rfl
    · simp [gcCount_concatSeqs]
  · rw [gc_content, if_neg (by decide)]
    have h4 : ([("seq", "GCGCATAT")].map (fun p : String × String => gcCount p.2)).sum = 4 := by
      decide
    have h8 : totalLen [("seq", "GCGCATAT")] = 8 := by decide
    rw [h4, h8]
    norm_num
  · rw [gc_content_per_entry, if_neg (by decide)]
    have h4 : gcCount "GCGCATAT" = 4 := by decide
    have h8 : ("GCGCATAT" : String).length = 8 := by decide
    simp only [List.map_cons, List.map_nil, h4, h8]
    norm_num
  · rw [gc_content, if_neg (by decide)]
    have h1 : ([("a", "G"), ("b", "AAA")].map (fun p : String × String => gcCount p.2)).sum = 1 := by
      decide
    have h4 : totalLen [("a", "G"), ("b", "AAA")] = 4 := by decide
    rw [h1, h4]
    norm_num

/-- Witness for C6 at the concrete input `[3]`. -/
theorem cumulative_threshold_value_mem_witness :
    (([3] : List Nat) ≠ [] ∧ ([3] : List Nat).sum ≠ 0) ∧
    ((∀ fraction : ℚ, 0 < fraction → fraction ≤ 1 →
        ∀ v i, cumulative_threshold [3] fraction = some (v, i) → v ∈ ([3] : List Nat)) ∧
      (∀ v, n50 [3] = some v → v ∈ ([3] : List Nat)) ∧
      (∀ v, n90 [3] = some v → v ∈ ([3] : List Nat))) :=
  ⟨⟨by decide, by decide⟩, cumulative_threshold_value_mem [3] (by decide) (by decide)⟩

/-- The function `Nat.digitChar` never produces a newline character on digit values. -/
theorem digitChar_ne_newline (m : Nat) (hm : m < 16) : Nat.digitChar m ≠ '\n' := by
  interval_cases m <;> decide

/-- Every character emitted by `Nat.toDigitsCore` beyond the accumulator is
`Nat.digitChar` of a residue modulo the base. -/
theorem toDigitsCore_mem (b : Nat) (hb : 0 < b) :
    ∀ (fuel n : Nat) (ds : List Char) (c : Char),
      c ∈ Nat.toDigitsCore b fuel n ds → c ∈ ds ∨ ∃ m, m < b ∧ c = Nat.digitChar m := by
  intro fuel
  induction fuel with
  | zero =>
      intro n ds c hc
      exact Or.inl hc
  | succ fuel ih =>
      intro n ds c hc
      rw [Nat.toDigitsCore] at hc
      by_cases hz : n / b = 0
      · rw [if_pos hz] at hc
        rcases List.mem_cons.mp hc with h | h
        · exact Or.inr ⟨n % b, Nat.mod_lt n hb, h⟩
        · exact Or.inl h
      · rw [if_neg hz] at hc
        rcases ih (n / b) (Nat.digitChar (n % b) :: ds) c hc with h | h
        · rcases List.mem_cons.mp h with h' | h'
          · exact Or.inr ⟨n % b, Nat.mod_lt n hb, h'⟩
          · exact Or.inl h'
        · exact Or.inr h

/-- The decimal representation of a natural number contains no newline. -/
theorem repr_no_newline (n : Nat) : '\n' ∉ (Nat.repr n).data := by
  intro hmem
  have hdig : '\n' ∈ Nat.toDigits 10 n := hmem
  rw [Nat.toDigits] at hdig
  rcases toDigitsCore_mem 10 (by norm_num) (n + 1) n [] _ hdig with h | ⟨m, hm, hq⟩
  · exact absurd h (List.not_mem_nil _)
  · exact digitChar_ne_newline m (by omega) hq.symm

/-- Claim C7: on a successful run of the L90 metric command, the output is
exactly the computed integer metric printed as a single line to standard
output: the decimal representation of the metric followed by the terminating
newline, with no newline occurring inside the number itself. -/
theorem l90_run_single_line (lengths : List Nat) (m : Nat)
    (h : l90 lengths = some m) :
    L90_run lengths = some (Nat.repr m ++ "\n") ∧
      '\n' ∉ (Nat.repr m).data := by
  refine ⟨?_, repr_no_newline m⟩
  rw [L90_run, calc_l90, h]
  rfl

/-- Witness for C7 at the concrete lengths of the worked example. -/
theorem l90_run_single_line_witness :
    l90 [100, 90, 80, 70, 60, 50, 40, 30, 20, 10] = some 8 ∧
    (L90_run [100, 90, 80, 70, 60, 50, 40, 30, 20, 10]
        = some (Nat.repr 8 ++ "\n") ∧
      '\n' ∉ (Nat.repr 8).data) := by
  have h : l90 [100, 90, 80, 70, 60, 50, 40, 30, 20, 10] = some 8 := by
    norm_num [l90, cumulative_threshold, sortDesc, thresholdWalk,
      List.insertionSort, List.orderedInsert, List.sum_cons]
    decide
  exact ⟨h, l90_run_single_line _ 8 h⟩

/-- Claim C8: for every argument vector, the packaged entry point `main`
raises `NameError` before dispatching any command, because it evaluates the
name `BioKIT` while the only class the module defines is named `Biokit`. -/
theorem main_raises_nameError :
    (∀ argv : List String,
      pymain argv = Except.error (PyError.nameError "BioKIT")) ∧
    "BioKIT" ∉ moduleGlobals ∧ "Biokit" ∈ moduleGlobals :=
  ⟨fun _ => rfl, by decide, by decide⟩

/-- Claim C9: whenever the command is neither an attribute of `Biokit` nor an
alias handled by `run_alias`, the invalid-command message is printed and the
unbound name `parser` raises a `NameError` at `parser.print_help()`, which
`__init__` catches and turns into `sys.exit()` — so the process exits with
status 0 and the `sys.exit(1)` call in `run_alias` is unreachable. -/
theorem invalid_command_exits_zero (command : String)
    (hattr : command ∉ biokitAttrs) (halias : aliasTarget command = none) :
    biokitDispatch command = DispatchOutcome.exited 0 [invalidCommandMessage] ∧
    "parser" ∉ runAliasScope ∧ "parser" ∉ moduleGlobals := by
  have hp : ¬("parser" ∈ runAliasScope ∨ "parser" ∈ moduleGlobals) := by decide
  refine ⟨?_, by decide, by decide⟩
  rw [biokitDispatch, if_neg hattr, halias, if_neg hp]

/-- Witness for C9 at the concrete command string "bogus". -/
theorem invalid_command_exits_zero_witness :
    ("bogus" ∉ biokitAttrs ∧ aliasTarget "bogus" = none) ∧
    (biokitDispatch "bogus"
        = DispatchOutcome.exited 0 [invalidCommandMessage] ∧
      "parser" ∉ runAliasScope ∧ "parser" ∉ moduleGlobals) :=
  ⟨⟨by decide, by decide⟩,
    invalid_command_exits_zero "bogus" (by decide) (by decide)⟩

/-- Claim C10: the aliases `gc`, `seq_len`, `seq_comp` and `rename_fasta`
advertised in the help texts are absent from the `run_alias` dispatch table,
so a command naming any of them takes the invalid-command branch instead of
running the advertised command. -/
theorem advertised_aliases_not_dispatched :
    ("gc" ∈ gcContentHelpAliases ∧ "gc" ∉ biokitAttrs ∧
      aliasTarget "gc" = none ∧
      biokitDispatch "gc" = DispatchOutcome.exited 0 [invalidCommandMessage]) ∧
    ("seq_len" ∈ sequenceLengthHelpAliases ∧ "seq_len" ∉ biokitAttrs ∧
      aliasTarget "seq_len" = none ∧
      biokitDispatch "seq_len"
        = DispatchOutcome.exited 0 [invalidCommandMessage]) ∧
    ("seq_comp" ∈ sequenceComplementHelpAliases ∧ "seq_comp" ∉ biokitAttrs ∧
      aliasTarget "seq_comp" = none ∧
      biokitDispatch "seq_comp"
        = DispatchOutcome.exited 0 [invalidCommandMessage]) ∧
    ("rename_fasta" ∈ renameFastaHelpAliases ∧ "rename_fasta" ∉ biokitAttrs ∧
      aliasTarget "rename_fasta" = none ∧
      biokitDispatch "rename_fasta"
        = DispatchOutcome.exited 0 [invalidCommandMessage]) := by
  decide

end BioKit
